import Mathlib

/-!
Verification of the two-pass code-graph extraction engine (vymalo/code-graph).

The definitions below are a shallow embedding of the TypeScript source:

* `generateEntityId` models `src/analyzer/parser-utils.ts` (see its doc comment);
* `calculateCyclomaticComplexity` embeds `src/analyzer/analysis/complexity-analyzer.ts`;
* `dispatchFile` embeds the extension switch of `Parser.parseFiles` (`src/analyzer/parser.ts`);
* `configStorageBatchSize` embeds the `STORAGE_BATCH_SIZE` handling of `src/config/index.ts`;
* `parseVariablesEntityId`, `parseFunctionsEntityId`, `importNodeEntityId` embed the
  Pass-1 entity-id construction of the variable / function / import parsers;
* `getTargetDeclarationInfo` embeds `src/analyzer/analysis/analyzer-utils.ts`;
* `resolveNamedImport` embeds the named-import lookup of `resolveTsModules`
  (`src/analyzer/resolvers/ts-resolver.ts`);
* `pass2ResolversFor` embeds the language dispatch of
  `RelationshipResolver.resolveRelationships` (`src/analyzer/relationship-resolver.ts`);
* `resolveCIncludes` embeds `src/analyzer/resolvers/c-cpp-resolver.ts`;
* `collectResults` embeds `Parser.collectResults` (`src/analyzer/parser.ts`);
* `resolverAddAll` embeds the `addRelationship` closure of
  `RelationshipResolver.resolveRelationships`;
* `analyzeWritePhase` embeds the write phase of `AnalyzerService.analyze` together
  with the batch slicing of `StorageManager`.
-/

/-- JavaScript `kind.toLowerCase()` on the ASCII kind tags. -/
def toLowerAscii (s : String) : String :=
  ⟨s.data.map Char.toLower⟩

/-- Modelled from the spec: `generateEntityId` lives in `src/analyzer/parser-utils.ts`,
which is not among the provided sources (only its callers are).  Per the spec, §3.1
and §3.3, the `entityId` is a deterministic, globally unique (collision-free)
encoding of the pair (kind, qualifiedName), identical no matter which pass computes
it.  We model it as the injective encoding `kind ++ ":" ++ qualifiedName`. -/
def generateEntityId (kind qualifiedName : String) : String :=
  kind ++ ":" ++ qualifiedName

/-- The open property bag of a node (`AstNode.properties` in `src/analyzer/types.ts`),
restricted to the fields the embedded code reads. -/
structure NodeProps where
  isExported : Bool := false
  isDefaultExport : Bool := false
  includePath : Option String := none
  isSystemInclude : Option Bool := none
  deriving Repr, DecidableEq

/-- A Pass-1 node record (`AstNode` in `src/analyzer/types.ts`), restricted to the
fields the embedded code reads. -/
structure AstNode where
  entityId : String
  kind : String
  name : String
  filePath : String
  language : String
  startLine : Nat := 1
  properties : NodeProps := {}
  deriving Repr, DecidableEq

/-- The open property bag of a relationship, restricted to the fields the embedded
code writes. -/
structure RelProps where
  isPlaceholder : Option Bool := none
  includePath : Option String := none
  isSystemInclude : Option Bool := none
  importedSymbol : Option String := none
  targetSymbol : Option String := none
  deriving Repr, DecidableEq

/-- A relationship record (`RelationshipInfo` in `src/analyzer/types.ts`), restricted
to the fields the embedded code reads and writes. -/
structure RelationshipInfo where
  entityId : String
  type : String
  sourceId : String
  targetId : String
  weight : Nat := 1
  properties : RelProps := {}
  deriving Repr, DecidableEq

/-! ### JavaScript `Map` model

`Parser.collectResults` and the resolvers keep nodes and relationships in
JavaScript `Map`s keyed by `entityId`.  A JS map is insertion-ordered and
`set` overwrites in place; since every map in the source is built exclusively
through `set`, keys are unique and overwriting the first occurrence is exact. -/

/-- JS `Map.prototype.set`: overwrite the entry holding `k` in place, else append. -/
def mapSet (m : List (String × α)) (k : String) (v : α) : List (String × α) :=
  match m with
  | [] => [(k, v)]
  | p :: t => if p.1 = k then (k, v) :: t else p :: mapSet t k v

/-- JS `Map.prototype.get`. -/
def mapGet (m : List (String × α)) (k : String) : Option α :=
  match m with
  | [] => none
  | p :: t => if p.1 = k then some p.2 else mapGet t k

/-- JS `Map.prototype.values`, in insertion order. -/
def mapValues (m : List (String × α)) : List α :=
  m.map (·.2)

/-- The value carried by the last pair of `l` whose key is `k` (the record
processed last). -/
def lastEntryFor (k : String) : List (String × α) → Option α
  | [] => none
  | p :: t =>
    match lastEntryFor k t with
    | some v => some v
    | none => if p.1 = k then some p.2 else none

/-! ### Cyclomatic complexity (`src/analyzer/analysis/complexity-analyzer.ts`) -/

/-- Binary-expression operator tokens, as distinguished by
`calculateCyclomaticComplexity` (the three logical operators against the rest). -/
inductive TsOperator where
  | ampAmp
  | barBar
  | questionQuestion
  | otherOp (code : Nat)
  deriving Repr, DecidableEq

/-- The syntax kinds `calculateCyclomaticComplexity` distinguishes; every other
kind is `otherKind`.  A binary expression carries its operator token. -/
inductive TsSyntaxKind where
  | ifStatement
  | forStatement
  | forInStatement
  | forOfStatement
  | whileStatement
  | doStatement
  | caseClause
  | catchClause
  | conditionalExpression
  | binaryExpression (operator : TsOperator)
  | otherKind (code : Nat)
  deriving Repr, DecidableEq

/-- A ts-morph syntax node: a kind plus the list of child nodes. -/
inductive TsNode where
  | mk (kind : TsSyntaxKind) (children : List TsNode)

/-- The kind of a node. -/
def TsNode.kind : TsNode → TsSyntaxKind
  | .mk k _ => k

/-- The children of a node. -/
def TsNode.children : TsNode → List TsNode
  | .mk _ cs => cs

/-- `node.forEachDescendant` visits every strict descendant in document
(pre-)order; this is the visit sequence. -/
def TsNode.descendants : TsNode → List TsNode
  | .mk _ cs => cs.attach.flatMap fun c => c.1 :: TsNode.descendants c.1
decreasing_by
  have h := List.sizeOf_lt_of_mem c.2
  simp only [TsNode.mk.sizeOf_spec]
  omega

/-- The first `if` of the visitor: the standard decision points. -/
def isDecisionPoint (k : TsSyntaxKind) : Bool :=
  match k with
  | .ifStatement | .forStatement | .forInStatement | .forOfStatement
  | .whileStatement | .doStatement | .caseClause | .catchClause
  | .conditionalExpression => true
  | _ => false

/-- The `else if` of the visitor: a binary expression whose operator token is
one of the three logical operators. -/
def isLogicalBinaryExpression (n : TsNode) : Bool :=
  match n.kind with
  | .binaryExpression .ampAmp => true
  | .binaryExpression .barBar => true
  | .binaryExpression .questionQuestion => true
  | _ => false

/-- Embedding of `calculateCyclomaticComplexity`: start at 1 and walk every
descendant, incrementing on decision points and on logical binary expressions;
an absent body yields the default of 1. -/
def calculateCyclomaticComplexity (node : Option TsNode) : Nat :=
  match node with
  | none => 1
  | some n =>
    n.descendants.foldl
      (fun complexity descendant =>
        if isDecisionPoint descendant.kind then complexity + 1
        else if isLogicalBinaryExpression descendant then complexity + 1
        else complexity)
      1

/-! ### Pass-1 dispatcher (`Parser.parseFiles`, `src/analyzer/parser.ts`) and
configuration (`src/config/index.ts`) -/

/-- `config.supportedExtensions` from `src/config/index.ts`. -/
def supportedExtensions : List String :=
  [".ts", ".tsx", ".js", ".jsx",
   ".py",
   ".c", ".h", ".cpp", ".hpp", ".cc", ".hh",
   ".java",
   ".cs",
   ".go",
   ".sql"]

/-- Outcome of the `switch (file.extension)` in `Parser.parseFiles`: which parser
a file is routed to, or how it is skipped. -/
inductive Pass1Route where
  | pythonParseFile
  | cppParseFile
  | javaParseFile
  | goParseFile
  | csharpParseFile
  | addedToTsProject
  | skippedWithWarning
  | skippedSqlWithInfo
  | skippedSilently
  deriving Repr, DecidableEq

/-- Embedding of the extension switch of `Parser.parseFiles` (lines 79-120 of
`src/analyzer/parser.ts`), including the `default` branch with its warning
condition over the supported extensions with `.sql` filtered out. -/
def dispatchFile (ext : String) : Pass1Route :=
  if ext = ".py" then .pythonParseFile
  else if ext = ".c" ∨ ext = ".cpp" ∨ ext = ".h" ∨ ext = ".hpp" then .cppParseFile
  else if ext = ".java" then .javaParseFile
  else if ext = ".go" then .goParseFile
  else if ext = ".cs" then .csharpParseFile
  else if ext = ".ts" ∨ ext = ".tsx" ∨ ext = ".js" ∨ ext = ".jsx"
          ∨ ext = ".mjs" ∨ ext = ".cjs" then .addedToTsProject
  else
    let supportedNonSql := supportedExtensions.filter (fun e => e ≠ ".sql")
    if ¬ supportedNonSql.contains ext then .skippedWithWarning
    else if ext = ".sql" then .skippedSqlWithInfo
    else .skippedSilently

/-- Whether a route leads to a parser that emits a `File` node for the file.
Every language parser emits the `File` node itself; a skipped file gets none. -/
def routeEmitsFileNode (r : Pass1Route) : Bool :=
  match r with
  | .pythonParseFile | .cppParseFile | .javaParseFile
  | .goParseFile | .csharpParseFile | .addedToTsProject => true
  | .skippedWithWarning | .skippedSqlWithInfo | .skippedSilently => false

/-- JavaScript whitespace skipped by `parseInt` before the number. -/
def isJsWhitespace (c : Char) : Bool :=
  c = ' ' ∨ c = '\t' ∨ c = '\n' ∨ c = '\r' ∨ c = '\x0b' ∨ c = '\x0c'

/-- Positional value of a base-10 digit string. -/
def digitsToNat (cs : List Char) : Nat :=
  cs.foldl (fun n c => n * 10 + (c.toNat - '0'.toNat)) 0

/-- The longest digit prefix of `cs`, as a number; `none` when there is no digit. -/
def digitsPrefixVal (cs : List Char) : Option Nat :=
  let ds := cs.takeWhile Char.isDigit
  if ds.isEmpty then none else some (digitsToNat ds)

/-- JavaScript `parseInt(s, 10)`: skip leading whitespace, read an optional sign,
then the longest run of decimal digits; `none` models `NaN`. -/
def jsParseIntDec (s : String) : Option Int :=
  match s.data.dropWhile isJsWhitespace with
  | [] => none
  | c :: rest =>
    if c = '-' then (digitsPrefixVal rest).map (fun n => -(n : Int))
    else if c = '+' then (digitsPrefixVal rest).map (fun n => (n : Int))
    else (digitsPrefixVal (c :: rest)).map (fun n => (n : Int))

/-- Embedding of the `storageBatchSize` computation of `src/config/index.ts`:
`parseInt(process.env.STORAGE_BATCH_SIZE || '100', 10)` followed by the
validation `if (isNaN(b) || b <= 0) b = 100`.  The `||` default also applies to
the empty string, which is falsy in JavaScript. -/
def configStorageBatchSize (env : Option String) : Nat :=
  let raw := match env with
    | none => "100"
    | some s => if s = "" then "100" else s
  match jsParseIntDec raw with
  | none => 100
  | some i => if i ≤ 0 then 100 else i.toNat

/-- Reading of the spec phrase: the string denotes a positive integer, i.e. it is a
non-empty base-10 digit string with a positive value. -/
def denotesPositiveInteger (s : String) : Prop :=
  s.data ≠ [] ∧ (∀ c ∈ s.data, c.isDigit = true) ∧ 0 < digitsToNat s.data

instance (s : String) : Decidable (denotesPositiveInteger s) := by
  unfold denotesPositiveInteger
  infer_instance

/-! ### Pass-1 entity-id construction (TS parsers) -/

/-- Entity id of a `Variable` node, from `parseVariables`
(`src/analyzer/parsers/variable-parser.ts`): the qualified name is
`filePath ":" name ":" startLine`. -/
def parseVariablesEntityId (filePath name : String) (startLine : Nat) : String :=
  generateEntityId "variable" (filePath ++ ":" ++ name ++ ":" ++ toString startLine)

/-- Entity id of a `Function` node, from `parseFunctions`
(`src/analyzer/parsers/function-parser.ts`): the qualified name is
`filePath ":" name ":" startLine`. -/
def parseFunctionsEntityId (filePath name : String) (startLine : Nat) : String :=
  generateEntityId "function" (filePath ++ ":" ++ name ++ ":" ++ toString startLine)

/-- Entity id of an `Import` node, from `parseImports`
(`src/analyzer/parsers/import-parser.ts`): the qualified name is
`filePath ":" moduleSpecifier ":" startLine`. -/
def importNodeEntityId (filePath moduleSpecifier : String) (startLine : Nat) : String :=
  generateEntityId "import" (filePath ++ ":" ++ moduleSpecifier ++ ":" ++ toString startLine)

/-! ### Symbol resolution primitive
(`getTargetDeclarationInfo`, `src/analyzer/analysis/analyzer-utils.ts`) -/

/-- The parent of a method declaration as inspected by `getTargetDeclarationInfo`:
a class/interface container (possibly unnamed) or something else. -/
inductive MethodParent where
  | container (name : Option String)
  | notAContainer
  deriving Repr, DecidableEq

/-- The enclosing function-like of a parameter declaration, as recovered by the
ancestor traversal: its resolved file path, name (after the `anonymousParent`
fallback) and start line. -/
structure ParamParent where
  filePath : String
  name : String
  startLine : Nat
  deriving Repr, DecidableEq

/-- The declaration shapes `getTargetDeclarationInfo` distinguishes. -/
inductive TsDeclKind where
  | functionDeclaration
  | functionExpression
  | arrowFunction
  | methodDeclaration (parent : MethodParent)
  | methodSignature (parent : MethodParent)
  | classDeclaration
  | interfaceDeclaration
  | variableDeclaration (initializerIsFunctionLike : Bool)
  | parameterDeclaration (parent : Option ParamParent)
  | typeAliasDeclaration
  | enumDeclaration
  | enumMember (enumName : String)
  | otherDeclaration (code : Nat)
  deriving Repr, DecidableEq

/-- A resolved declaration as seen by `getTargetDeclarationInfo`: its shape, its
name (after the `getName()` fallbacks) and its start line. -/
structure TsDeclaration where
  declKind : TsDeclKind
  name : String
  startLine : Nat
  deriving Repr, DecidableEq

/-- The result record of `getTargetDeclarationInfo`. -/
structure TargetDeclarationInfo where
  name : String
  kind : String
  filePath : String
  entityId : String
  deriving Repr, DecidableEq

/-- Embedding of `getTargetDeclarationInfo` (lines 28-181 of
`src/analyzer/analysis/analyzer-utils.ts`): map the declaration to a kind and a
qualified name, append the start line for the `Function` kind only, and encode.
Unknown shapes return `none`. -/
def getTargetDeclarationInfo (decl : TsDeclaration) (resolvedFilePath : String) :
    Option TargetDeclarationInfo :=
  let fp := resolvedFilePath
  let info : Option (String × String × String) :=
    match decl.declKind with
    | .functionDeclaration | .functionExpression | .arrowFunction =>
      some ("Function", decl.name, fp ++ ":" ++ decl.name)
    | .methodDeclaration parent | .methodSignature parent =>
      match parent with
      | .container parentName =>
        some ("Method", decl.name,
          fp ++ ":" ++ parentName.getD "AnonymousContainer" ++ "." ++ decl.name)
      | .notAContainer =>
        some ("Method", decl.name, fp ++ ":unknownParent." ++ decl.name)
    | .classDeclaration => some ("Class", decl.name, fp ++ ":" ++ decl.name)
    | .interfaceDeclaration => some ("Interface", decl.name, fp ++ ":" ++ decl.name)
    | .variableDeclaration true => some ("Function", decl.name, fp ++ ":" ++ decl.name)
    | .variableDeclaration false => some ("Variable", decl.name, fp ++ ":" ++ decl.name)
    | .parameterDeclaration (some parent) =>
      some ("Parameter", decl.name,
        parent.filePath ++ ":" ++ parent.name ++ ":" ++ toString parent.startLine
          ++ ":" ++ decl.name)
    | .parameterDeclaration none =>
      some ("Parameter", decl.name, fp ++ ":unknownParent:" ++ decl.name)
    | .typeAliasDeclaration => some ("TypeAlias", decl.name, fp ++ ":" ++ decl.name)
    | .enumDeclaration => some ("TypeAlias", decl.name, fp ++ ":" ++ decl.name)
    | .enumMember enumName =>
      some ("TypeAlias", enumName ++ "." ++ decl.name, fp ++ ":" ++ enumName)
    | .otherDeclaration _ => none
  match info with
  | none => none
  | some (kind, name, qualifiedNameForId) =>
    let qualifiedNameForId :=
      if kind = "Function" then qualifiedNameForId ++ ":" ++ toString decl.startLine
      else qualifiedNameForId
    some { name := name, kind := kind, filePath := fp,
           entityId := generateEntityId (toLowerAscii kind) qualifiedNameForId }

/-! ### Named-import resolution (`resolveTsModules`,
`src/analyzer/resolvers/ts-resolver.ts`, lines 105-148) -/

/-- The lookup of an exported declaration in the target file: try, in order, the
kinds `function`, `class`, `interface`, `variable`, each with the qualified name
`targetFilePath ":" importName` (no start line). -/
def lookupNamedImportTarget (nodeIndex : List (String × AstNode))
    (targetFilePath importName : String) : Option AstNode :=
  let tryKind := fun (kind : String) =>
    mapGet nodeIndex (generateEntityId kind (targetFilePath ++ ":" ++ importName))
  match tryKind "function" with
  | some n => some n
  | none =>
    match tryKind "class" with
    | some n => some n
    | none =>
      match tryKind "interface" with
      | some n => some n
      | none => tryKind "variable"

/-- The `RESOLVES_IMPORT` emission for one named import: emit only when the
lookup hits and the target is exported (or a default export). -/
def resolveNamedImport (nodeIndex : List (String × AstNode)) (importAstNode : AstNode)
    (targetFilePath importName : String) (importAlias : Option String) :
    Option RelationshipInfo :=
  match lookupNamedImportTarget nodeIndex targetFilePath importName with
  | none => none
  | some targetNode =>
    if targetNode.properties.isExported ∨ targetNode.properties.isDefaultExport then
      some { entityId := generateEntityId "resolves_import"
               (importAstNode.entityId ++ ":" ++ targetNode.entityId),
             type := "RESOLVES_IMPORT",
             sourceId := importAstNode.entityId,
             targetId := targetNode.entityId,
             weight := 8,
             properties := { importedSymbol := some (importAlias.getD importName),
                             targetSymbol := some importName } }
    else none

/-! ### Pass-2 dispatch (`RelationshipResolver.resolveRelationships`,
`src/analyzer/relationship-resolver.ts`) -/

/-- The language tag Pass 1 stores on a TS/JS `File` node
(`Parser._parseTsProjectFiles`, `src/analyzer/parser.ts` line 307): files whose
language variant is JSX are tagged `TSX`. -/
def tsFileLanguage (isJsxVariant : Bool) : String :=
  if isJsxVariant then "TSX" else "TypeScript"

/-- Whether `parseJsx` runs for the file in Pass 1
(`src/analyzer/parser.ts` line 350). -/
def pass1ParsesJsx (language : String) : Bool :=
  language = "TSX"

/-- The Pass-2 resolver families. -/
inductive Pass2Resolver where
  | tsModules
  | tsInheritance
  | tsCrossFileInteractions
  | tsComponentUsage
  | cIncludes
  deriving Repr, DecidableEq

/-- Embedding of the per-file dispatch of `resolveRelationships` (lines 228-251):
the four TS resolvers run only for file nodes whose language is exactly
`TypeScript` or `JavaScript`; the include resolver runs for `C` and `C++`. -/
def pass2ResolversFor (language : String) : List Pass2Resolver :=
  (if language = "TypeScript" ∨ language = "JavaScript" then
    [.tsModules, .tsInheritance, .tsCrossFileInteractions, .tsComponentUsage]
  else [])
  ++ (if language = "C" ∨ language = "C++" then [.cIncludes] else [])

/-! ### C/C++ include resolution (`resolveCIncludes`,
`src/analyzer/resolvers/c-cpp-resolver.ts`) -/

/-- Embedding of `resolveCIncludes`: for every `IncludeDirective` node of the file
(with a truthy `includePath`), emit an `INCLUDES` edge whose target entity id is
computed from the include path string and which is marked as a placeholder.  The
node index is received but never consulted for the target. -/
def resolveCIncludes (fileNode : AstNode) (nodeIndex : List (String × AstNode)) :
    List RelationshipInfo :=
  if fileNode.language ≠ "C" ∧ fileNode.language ≠ "C++" then []
  else
    let includeDirectives := (mapValues nodeIndex).filter
      (fun n => n.kind == "IncludeDirective" && n.filePath == fileNode.filePath)
    includeDirectives.filterMap (fun directiveNode =>
      match directiveNode.properties.includePath with
      | none => none
      | some includePath =>
        if includePath = "" then none
        else
          let targetFileEntityId := generateEntityId "file" includePath
          some { entityId := generateEntityId "includes"
                   (fileNode.entityId ++ ":" ++ targetFileEntityId),
                 type := "INCLUDES",
                 sourceId := fileNode.entityId,
                 targetId := targetFileEntityId,
                 weight := 4,
                 properties := { includePath := some includePath,
                                 isSystemInclude := directiveNode.properties.isSystemInclude,
                                 isPlaceholder := some true } })

/-! ### Result merging (`Parser.collectResults`, `src/analyzer/parser.ts`) -/

/-- A per-file Pass-1 result (`SingleFileParseResult` in `src/analyzer/types.ts`). -/
structure SingleFileParseResult where
  filePath : String
  nodes : List AstNode
  relationships : List RelationshipInfo
  deriving Repr, DecidableEq

/-- The two accumulating maps of `collectResults`. -/
structure CollectMaps where
  nodeMap : List (String × AstNode)
  relationshipMap : List (String × RelationshipInfo)
  deriving Repr, DecidableEq

/-- The per-file node map of `collectResults`: nodes of one result file are first
deduplicated among themselves (counting duplicates for the log). -/
def dedupFileNodes (nodes : List AstNode) : List (String × AstNode) :=
  nodes.foldl (fun m node => mapSet m node.entityId node) []

/-- Ingest one per-file result: the per-file node map is merged into the global
node map, and the relationships go directly into the global relationship map.
This logic is shared verbatim between the temporary-JSON branch and the
in-memory TS branch of `collectResults`. -/
def ingestResult (maps : CollectMaps) (result : SingleFileParseResult) : CollectMaps :=
  { nodeMap := (dedupFileNodes result.nodes).foldl (fun m p => mapSet m p.1 p.2) maps.nodeMap,
    relationshipMap :=
      result.relationships.foldl (fun m rel => mapSet m rel.entityId rel) maps.relationshipMap }

/-- The accumulated maps of `Parser.collectResults`: the temporary-JSON results
are processed first (a result with a falsy `filePath` is skipped as an invalid
structure), the in-memory TS results afterwards. -/
def collectMapsAfter (jsonResults tsResults : List SingleFileParseResult) :
    CollectMaps :=
  tsResults.foldl ingestResult
    (jsonResults.foldl
      (fun maps result =>
        if result.filePath = "" then maps else ingestResult maps result)
      { nodeMap := [], relationshipMap := [] })

/-- Embedding of `Parser.collectResults`: the merged maps returned as value
lists, in insertion order. -/
def collectResults (jsonResults tsResults : List SingleFileParseResult) :
    List AstNode × List RelationshipInfo :=
  (mapValues (collectMapsAfter jsonResults tsResults).nodeMap,
   mapValues (collectMapsAfter jsonResults tsResults).relationshipMap)

/-! ### Pass-2 relationship accumulation
(`RelationshipResolver.resolveRelationships`, lines 196-215) -/

/-- The sequence of `addRelationship` calls of one Pass-2 run: a relationship is
appended only when its `entityId` is not in the `addedRelEntityIds` set. -/
def resolverAddLoop :
    List RelationshipInfo → List RelationshipInfo → List String →
    List RelationshipInfo × List String
  | [], out, seen => (out, seen)
  | rel :: rest, out, seen =>
    if seen.contains rel.entityId then resolverAddLoop rest out seen
    else resolverAddLoop rest (out ++ [rel]) (seen ++ [rel.entityId])

/-- The list returned by `resolveRelationships` after all submissions. -/
def resolverAddAll (submissions : List RelationshipInfo) : List RelationshipInfo :=
  (resolverAddLoop submissions [] []).1

/-! ### Write phase (`AnalyzerService.analyze` and `StorageManager`,
`src/analyzer/analyzer-service.ts` lines 84-116, `src/analyzer/storage-manager.ts`) -/

/-- The batch-slicing loop, with the remaining list length as structural fuel:
when `B` is positive every iteration consumes at least one record, so fuel equal
to the initial length is never exhausted. -/
def batchesAux (B : Nat) : Nat → List α → List (List α)
  | _, [] => []
  | 0, _ :: _ => []
  | fuel + 1, x :: xs => (x :: xs).take B :: batchesAux B fuel ((x :: xs).drop B)

/-- The batch slicing `for (let i = 0; i < n; i += B) slice(i, i + B)` of
`StorageManager`.  The `B = 0` case never arises: the validated configuration
batch size is positive. -/
def batches (B : Nat) (l : List α) : List (List α) :=
  batchesAux B l.length l

/-- One committed store transaction of the write phase. -/
inductive WriteCommit where
  | nodeBatch (batch : List AstNode)
  | relBatch (relType : String) (batch : List RelationshipInfo)
  deriving Repr, DecidableEq

/-- Number of records in a committed batch. -/
def commitSize : WriteCommit → Nat
  | .nodeBatch b => b.length
  | .relBatch _ b => b.length

/-- Whether a commit is a node batch. -/
def isNodeCommit : WriteCommit → Bool
  | .nodeBatch _ => true
  | .relBatch _ _ => false

/-- Whether a commit is a relationship batch. -/
def isRelCommit : WriteCommit → Bool
  | .nodeBatch _ => false
  | .relBatch _ _ => true

/-- `StorageManager.saveNodesBatch`: commit the node list in slices of `B`. -/
def saveNodesBatches (B : Nat) (nodes : List AstNode) : List WriteCommit :=
  (batches B nodes).map .nodeBatch

/-- `StorageManager.saveRelationshipsBatch`: commit one relationship type in
slices of `B`. -/
def saveRelationshipsBatches (B : Nat) (relType : String)
    (rels : List RelationshipInfo) : List WriteCommit :=
  (batches B rels).map (.relBatch relType)

/-- The `relationshipsByType` grouping of `AnalyzerService.analyze`: a JS object
keyed by type, in first-seen key order, each group in submission order. -/
def groupByType (rels : List RelationshipInfo) :
    List (String × List RelationshipInfo) :=
  rels.foldl
    (fun groups rel =>
      if groups.any (fun g => g.1 == rel.type) then
        groups.map (fun g => if g.1 = rel.type then (g.1, g.2 ++ [rel]) else g)
      else groups ++ [(rel.type, [rel])])
    []

/-- The commit sequence of the write phase of `AnalyzerService.analyze`:
`saveNodesBatch` over all final nodes runs to completion, then
`saveRelationshipsBatch` is called once per relationship type. -/
def analyzeWritePhase (B : Nat) (finalNodes : List AstNode)
    (uniqueRelationships : List RelationshipInfo) : List WriteCommit :=
  saveNodesBatches B finalNodes
    ++ (groupByType uniqueRelationships).flatMap
        (fun g => saveRelationshipsBatches B g.1 g.2)

/-! ### Concrete inputs for the end-to-end scenarios -/

/-- The variable declaration of the C1 divergence input: `counter` at line 2 of
`/src/a.ts`, with a non-function initializer. -/
def c1VariableDecl : TsDeclaration :=
  { declKind := .variableDeclaration false, name := "counter", startLine := 2 }

/-- Scenario 1, Pass-1 `File` node for `a.ts`. -/
def scenario1FileA : AstNode :=
  { entityId := generateEntityId "file" "/proj/a.ts", kind := "File", name := "a.ts",
    filePath := "/proj/a.ts", language := "TypeScript" }

/-- Scenario 1, Pass-1 `Import` node for the declaration
`import { funcB } from './b'` on line 1 of `a.ts`. -/
def scenario1ImportB : AstNode :=
  { entityId := importNodeEntityId "/proj/a.ts" "./b" 1, kind := "Import",
    name := "./b:1", filePath := "/proj/a.ts", language := "TypeScript", startLine := 1 }

/-- Scenario 1, Pass-1 `Function` node for `funcA` declared on line 2 of `a.ts`. -/
def scenario1FuncA : AstNode :=
  { entityId := parseFunctionsEntityId "/proj/a.ts" "funcA" 2, kind := "Function",
    name := "funcA", filePath := "/proj/a.ts", language := "TypeScript", startLine := 2,
    properties := { isExported := true } }

/-- Scenario 1, Pass-1 `File` node for `b.ts`. -/
def scenario1FileB : AstNode :=
  { entityId := generateEntityId "file" "/proj/b.ts", kind := "File", name := "b.ts",
    filePath := "/proj/b.ts", language := "TypeScript" }

/-- Scenario 1, Pass-1 `Function` node for `export function funcB` declared on
line 1 of `b.ts`; its entity id is the one `parseFunctions` produces. -/
def scenario1FuncB : AstNode :=
  { entityId := parseFunctionsEntityId "/proj/b.ts" "funcB" 1, kind := "Function",
    name := "funcB", filePath := "/proj/b.ts", language := "TypeScript", startLine := 1,
    properties := { isExported := true } }

/-- Scenario 1, the Pass-2 node index over the merged Pass-1 nodes. -/
def scenario1Index : List (String × AstNode) :=
  [scenario1FileA, scenario1ImportB, scenario1FuncA, scenario1FileB,
   scenario1FuncB].foldl (fun m n => mapSet m n.entityId n) []

/-- The C4 input: the `File` node for `main.cpp`. -/
def c4MainFile : AstNode :=
  { entityId := generateEntityId "file" "/proj/src/main.cpp", kind := "File",
    name := "main.cpp", filePath := "/proj/src/main.cpp", language := "C++" }

/-- The C4 input: the Pass-1 `IncludeDirective` node for
`#include "shapes/Circle.h"` in `main.cpp`. -/
def c4IncludeDirective : AstNode :=
  { entityId := generateEntityId "includedirective" "/proj/src/main.cpp:shapes/Circle.h:2",
    kind := "IncludeDirective", name := "shapes/Circle.h",
    filePath := "/proj/src/main.cpp", language := "C++", startLine := 2,
    properties := { includePath := some "shapes/Circle.h", isSystemInclude := some false } }

/-- The C4 input: a `File` node for `/proj/src/shapes/Circle.h`, present in the
index, whose path is a suffix match for the include path. -/
def c4CircleHeader : AstNode :=
  { entityId := generateEntityId "file" "/proj/src/shapes/Circle.h", kind := "File",
    name := "Circle.h", filePath := "/proj/src/shapes/Circle.h", language := "C++" }

/-- The C4 node index, holding the matching header file node. -/
def c4Index : List (String × AstNode) :=
  [c4MainFile, c4IncludeDirective, c4CircleHeader].foldl
    (fun m n => mapSet m n.entityId n) []

/-- The single `INCLUDES` edge `resolveCIncludes` emits on the C4 input. -/
def c4EmittedRel : RelationshipInfo :=
  { entityId := generateEntityId "includes"
      (c4MainFile.entityId ++ ":" ++ generateEntityId "file" "shapes/Circle.h"),
    type := "INCLUDES", sourceId := c4MainFile.entityId,
    targetId := generateEntityId "file" "shapes/Circle.h", weight := 4,
    properties := { includePath := some "shapes/Circle.h",
                    isSystemInclude := some false, isPlaceholder := some true } }

/-- A first node for the write-phase witness input. -/
def c6NodeA : AstNode :=
  { entityId := generateEntityId "function" "/w.ts:a:1", kind := "Function",
    name := "a", filePath := "/w.ts", language := "TypeScript" }

/-- A second node for the write-phase witness input. -/
def c6NodeB : AstNode :=
  { entityId := generateEntityId "function" "/w.ts:b:2", kind := "Function",
    name := "b", filePath := "/w.ts", language := "TypeScript" }

/-- A third node for the write-phase witness input. -/
def c6NodeC : AstNode :=
  { entityId := generateEntityId "function" "/w.ts:c:3", kind := "Function",
    name := "c", filePath := "/w.ts", language := "TypeScript" }

/-- A relationship for the write-phase witness input. -/
def c6Rel : RelationshipInfo :=
  { entityId := generateEntityId "calls"
      (c6NodeA.entityId ++ ":" ++ c6NodeB.entityId),
    type := "CALLS", sourceId := c6NodeA.entityId, targetId := c6NodeB.entityId,
    weight := 7 }

/-- Key-value view of a node list, keyed by entity id — the exact pairs the
`collectResults` maps are built from. -/
def nodePairs (nodes : List AstNode) : List (String × AstNode) :=
  nodes.map (fun n => (n.entityId, n))

/-- Key-value view of a relationship list, keyed by entity id. -/
def relPairs (rels : List RelationshipInfo) : List (String × RelationshipInfo) :=
  rels.map (fun r => (r.entityId, r))

/-! ## Theorems -/

/-- Decision points and logical binary expressions are disjoint syntax shapes. -/
theorem isDecisionPoint_not_logical (n : TsNode) (h : isDecisionPoint n.kind = true) :
    isLogicalBinaryExpression n = false := by
  unfold isLogicalBinaryExpression
  cases hk : n.kind <;> simp [isDecisionPoint, hk] at h ⊢

/-- The complexity fold counts the two disjoint descendant shapes. -/
theorem complexity_foldl_counts (l : List TsNode) (acc : Nat) :
    l.foldl
      (fun complexity descendant =>
        if isDecisionPoint descendant.kind then complexity + 1
        else if isLogicalBinaryExpression descendant then complexity + 1
        else complexity)
      acc
    = acc + l.countP (fun d => isDecisionPoint d.kind)
        + l.countP isLogicalBinaryExpression := by
  induction l generalizing acc with
  | nil => simp
  | cons x xs ih =>
    simp only [List.foldl_cons, List.countP_cons, ih]
    by_cases h1 : isDecisionPoint x.kind = true
    · have h2 := isDecisionPoint_not_logical x h1
      simp [h1, h2]
      omega
    · by_cases h2 : isLogicalBinaryExpression x = true
      · simp [h1, h2]
        omega
      · simp [h1, h2]

/-- C7: for every function or method body, the computed cyclomatic complexity is
1 plus the number of descendant `if` / `for` / `for-in` / `for-of` / `while` /
`do` / case-clause / catch-clause / conditional-expression nodes, plus the
number of descendant binary expressions whose operator is `&&`, `||` or `??`;
an absent body yields 1. -/
theorem calculateCyclomaticComplexity_spec (node : Option TsNode) :
    calculateCyclomaticComplexity node
      = match node with
        | none => 1
        | some n =>
          1 + n.descendants.countP (fun d => isDecisionPoint d.kind)
            + n.descendants.countP isLogicalBinaryExpression := by
  cases node with
  | none => rfl
  | some n =>
    simpa [calculateCyclomaticComplexity] using
      complexity_foldl_counts n.descendants 1

/-- C10: files with extension `.cc` or `.hh` are silently dropped by the Pass-1
dispatcher: both extensions are in the default supported list, no parser case
matches them, the unsupported-extension warning does not fire, and no parser
(hence no `File` node) is produced for them. -/
theorem dispatch_cc_hh_silently_dropped :
    dispatchFile ".cc" = .skippedSilently
  ∧ dispatchFile ".hh" = .skippedSilently
  ∧ ".cc" ∈ supportedExtensions
  ∧ ".hh" ∈ supportedExtensions
  ∧ dispatchFile ".cc" ≠ .skippedWithWarning
  ∧ dispatchFile ".hh" ≠ .skippedWithWarning
  ∧ routeEmitsFileNode (dispatchFile ".cc") = false
  ∧ routeEmitsFileNode (dispatchFile ".hh") = false := by
  decide

/-- C1: the Pass-1 variable entity id carries the declaration start line, while
the id reconstructed by `getTargetDeclarationInfo` for the same non-function
variable declaration does not, so the two ids differ.  Input: variable `counter`
declared at line 2 of `/src/a.ts`. -/
theorem getTargetDeclarationInfo_variable_id_mismatch :
    (getTargetDeclarationInfo c1VariableDecl "/src/a.ts").map (·.entityId)
      = some (generateEntityId "variable" "/src/a.ts:counter")
  ∧ parseVariablesEntityId "/src/a.ts" "counter" 2
      = generateEntityId "variable" "/src/a.ts:counter:2"
  ∧ (getTargetDeclarationInfo c1VariableDecl "/src/a.ts").map (·.entityId)
      ≠ some (parseVariablesEntityId "/src/a.ts" "counter" 2) :=
  ⟨rfl, rfl, by decide⟩

/-- C2: on the two-file input of end-to-end scenario 1, the named-import lookup
of `resolveTsModules` reconstructs a `function` entity id without the start
line, while the Pass-1 node for `funcB` (present in the index) carries the start
line; the lookup therefore misses and no `RESOLVES_IMPORT` edge is emitted. -/
theorem resolveTsModules_namedImport_lookup_misses_function :
    mapGet scenario1Index (parseFunctionsEntityId "/proj/b.ts" "funcB" 1)
      = some scenario1FuncB
  ∧ scenario1FuncB.properties.isExported = true
  ∧ lookupNamedImportTarget scenario1Index "/proj/b.ts" "funcB" = none
  ∧ resolveNamedImport scenario1Index scenario1ImportB "/proj/b.ts" "funcB" none
      = none :=
  ⟨rfl, rfl, rfl, rfl⟩

/-- C3: Pass 1 tags a JSX-variant file node with language `TSX`, but the Pass-2
dispatch runs the TS resolver family (including `resolveTsComponentUsage`, the
only emitter of `USES_COMPONENT` edges) just for languages `TypeScript` and
`JavaScript`; thus no Pass-2 component-usage resolution runs for `.tsx` files. -/
theorem pass2_skips_tsx_files :
    tsFileLanguage true = "TSX"
  ∧ pass1ParsesJsx (tsFileLanguage true) = true
  ∧ pass2ResolversFor (tsFileLanguage true) = []
  ∧ Pass2Resolver.tsComponentUsage ∉ pass2ResolversFor (tsFileLanguage true)
  ∧ Pass2Resolver.tsComponentUsage ∈ pass2ResolversFor "TypeScript" := by
  refine ⟨rfl, rfl, rfl, by decide, by decide⟩

/-- C4 counterexample: on an index that holds a file node whose path is a suffix
match for the include path `shapes/Circle.h`, the resolver still emits the edge
with a placeholder target id derived from the include path string, not the id of
the matching file node. -/
theorem resolveCIncludes_ignores_index_counterexample :
    c4CircleHeader ∈ mapValues c4Index
  ∧ c4CircleHeader.kind = "File"
  ∧ "/proj/src/" ++ "shapes/Circle.h" = c4CircleHeader.filePath
  ∧ resolveCIncludes c4MainFile c4Index = [c4EmittedRel]
  ∧ c4EmittedRel.targetId = generateEntityId "file" "shapes/Circle.h"
  ∧ c4EmittedRel.targetId ≠ c4CircleHeader.entityId
  ∧ c4EmittedRel.properties.isPlaceholder = some true :=
  ⟨by decide, rfl, rfl, rfl, rfl, by decide, rfl⟩

/-- C8 counterexample: the environment value `7.5` does not denote a positive
integer, yet the effective batch size is 7, not the fallback 100 — JavaScript
`parseInt` keeps the leading digits of an invalid value. -/
theorem storageBatchSize_parseInt_counterexample :
    ¬ denotesPositiveInteger "7.5"
  ∧ configStorageBatchSize (some "7.5") = 7
  ∧ configStorageBatchSize (some "7.5") ≠ 100 :=
  ⟨by decide, rfl, by decide⟩

/-- C4 amended: the include resolver never consults the node index for the
target.  Every emitted edge is an `INCLUDES` edge from the file whose target
entity id is computed from the include-path string of some `IncludeDirective`
node of that file, and it is always marked `isPlaceholder = true` — also when a
matching file node exists in the index. -/
theorem resolveCIncludes_always_placeholder (fileNode : AstNode)
    (nodeIndex : List (String × AstNode)) (rel : RelationshipInfo)
    (hrel : rel ∈ resolveCIncludes fileNode nodeIndex) :
    rel.type = "INCLUDES"
  ∧ rel.sourceId = fileNode.entityId
  ∧ rel.properties.isPlaceholder = some true
  ∧ ∃ d ∈ mapValues nodeIndex,
      d.kind = "IncludeDirective" ∧ d.filePath = fileNode.filePath
      ∧ ∃ p, d.properties.includePath = some p ∧ p ≠ ""
          ∧ rel.targetId = generateEntityId "file" p := by
  unfold resolveCIncludes at hrel
  split at hrel
  · simp at hrel
  · rw [List.mem_filterMap] at hrel
    obtain ⟨d, hd, hf⟩ := hrel
    rw [List.mem_filter] at hd
    obtain ⟨hdmem, hdpred⟩ := hd
    simp only [Bool.and_eq_true, beq_iff_eq] at hdpred
    cases hip : d.properties.includePath with
    | none => rw [hip] at hf; simp at hf
    | some p =>
      rw [hip] at hf
      by_cases hp : p = ""
      · simp [hp] at hf
      · simp only [if_neg hp] at hf
        injection hf with hf
        subst hf
        exact ⟨rfl, rfl, rfl, d, hdmem, hdpred.1, hdpred.2, p, hip, hp, rfl⟩

/-- Witness for the C4 amended theorem, at the concrete C4 input. -/
theorem resolveCIncludes_always_placeholder_witness :
    c4EmittedRel.type = "INCLUDES"
  ∧ c4EmittedRel.sourceId = c4MainFile.entityId
  ∧ c4EmittedRel.properties.isPlaceholder = some true
  ∧ ∃ d ∈ mapValues c4Index,
      d.kind = "IncludeDirective" ∧ d.filePath = c4MainFile.filePath
      ∧ ∃ p, d.properties.includePath = some p ∧ p ≠ ""
          ∧ c4EmittedRel.targetId = generateEntityId "file" p :=
  resolveCIncludes_always_placeholder c4MainFile c4Index c4EmittedRel (by decide)

/-- A list all of whose members satisfy a Boolean predicate is its own
`takeWhile`. -/
theorem takeWhile_eq_self_of_all {α : Type} (p : α → Bool) (l : List α)
    (h : ∀ a ∈ l, p a = true) : l.takeWhile p = l := by
  induction l with
  | nil => rfl
  | cons x xs ih =>
    rw [List.takeWhile_cons, h x (by simp)]
    simp [ih fun a ha => h a (List.mem_cons_of_mem x ha)]

/-- A decimal digit is neither JS whitespace nor a sign character. -/
theorem digit_char_facts (c : Char) (h : c.isDigit = true) :
    isJsWhitespace c = false ∧ c ≠ '-' ∧ c ≠ '+' := by
  refine ⟨?_, ?_, ?_⟩
  · unfold isJsWhitespace
    simp only [decide_eq_false_iff_not]
    rintro (rfl | rfl | rfl | rfl | rfl | rfl) <;> exact absurd h (by decide)
  · rintro rfl; exact absurd h (by decide)
  · rintro rfl; exact absurd h (by decide)

/-- When `parseInt` yields a positive value, the validated batch size is that
value. -/
theorem configStorageBatchSize_of_parse_pos (s : String) (i : Int) (hs : s ≠ "")
    (hp : jsParseIntDec s = some i) (hi : 0 < i) :
    configStorageBatchSize (some s) = i.toNat := by
  unfold configStorageBatchSize
  simp only [if_neg hs, hp]
  rw [if_neg (by omega)]

/-- On a pure digit string, `parseInt` returns its full positional value. -/
theorem jsParseIntDec_of_digits (s : String) (c : Char) (cs : List Char)
    (hdata : s.data = c :: cs) (hdig : ∀ a ∈ s.data, a.isDigit = true) :
    jsParseIntDec s = some ((digitsToNat s.data : Nat) : Int) := by
  have hc : c.isDigit = true := hdig c (by rw [hdata]; exact List.mem_cons_self c cs)
  have hfacts := digit_char_facts c hc
  have hpv : digitsPrefixVal (c :: cs) = some (digitsToNat (c :: cs)) := by
    unfold digitsPrefixVal
    rw [takeWhile_eq_self_of_all Char.isDigit (c :: cs)
          (fun a ha => hdig a (by rw [hdata]; exact ha))]
    simp
  unfold jsParseIntDec
  rw [hdata, List.dropWhile_cons, hfacts.1]
  simp only [Bool.false_eq_true, if_false]
  rw [if_neg hfacts.2.1, if_neg hfacts.2.2, hpv]
  simp

/-- C8 amended: a `STORAGE_BATCH_SIZE` value that denotes a positive integer is
used exactly; in general the leading decimal integer read by JS
`parseInt(value, 10)` is used whenever it is positive (so `7.5` yields 7, not
the fallback), and the fallback 100 applies only when `parseInt` yields `NaN`
or a non-positive value, or when the variable is unset or empty. -/
theorem storageBatchSize_amended_spec :
    (∀ s : String, denotesPositiveInteger s →
        configStorageBatchSize (some s) = digitsToNat s.data)
  ∧ (∀ (s : String) (i : Int), s ≠ "" → jsParseIntDec s = some i → 0 < i →
        configStorageBatchSize (some s) = i.toNat)
  ∧ (∀ (s : String) (i : Int), s ≠ "" → jsParseIntDec s = some i → i ≤ 0 →
        configStorageBatchSize (some s) = 100)
  ∧ (∀ s : String, s ≠ "" → jsParseIntDec s = none →
        configStorageBatchSize (some s) = 100)
  ∧ configStorageBatchSize (some "") = 100
  ∧ configStorageBatchSize none = 100 := by
  refine ⟨?_, configStorageBatchSize_of_parse_pos, ?_, ?_, rfl, rfl⟩
  · intro s h
    obtain ⟨hne, hdig, hpos⟩ := h
    obtain ⟨c, cs, hdata⟩ : ∃ c cs, s.data = c :: cs := by
      cases hd : s.data with
      | nil => exact absurd hd hne
      | cons c cs => exact ⟨c, cs, rfl⟩
    have hs : s ≠ "" := by
      intro hs0
      rw [hs0] at hdata
      simp at hdata
    have hparse := jsParseIntDec_of_digits s c cs hdata hdig
    rw [configStorageBatchSize_of_parse_pos s _ hs hparse (by exact_mod_cast hpos)]
    exact Int.toNat_natCast _
  · intro s i hs hparse hineg
    unfold configStorageBatchSize
    simp only [if_neg hs, hparse]
    rw [if_pos hineg]
  · intro s hs hparse
    unfold configStorageBatchSize
    simp only [if_neg hs, hparse]

/-- Witness for the C8 amended theorem: the digit string `42` is used exactly. -/
theorem storageBatchSize_amended_spec_witness :
    denotesPositiveInteger "42"
  ∧ configStorageBatchSize (some "42") = digitsToNat ("42").data
  ∧ digitsToNat ("42").data = 42 :=
  ⟨by decide, storageBatchSize_amended_spec.1 "42" (by decide), by decide⟩

/-- `contains` on a list of strings is membership. -/
theorem string_contains_iff (l : List String) (a : String) :
    l.contains a = true ↔ a ∈ l := by
  simp [List.contains, List.elem_iff]

/-- Invariant of the `addRelationship` loop: the seen set mirrors the ids of the
output, output ids stay duplicate-free, and for every id the first submission
wins. -/
theorem resolverAddLoop_spec (subs : List RelationshipInfo) :
    ∀ (out : List RelationshipInfo) (seen : List String),
    seen = out.map (·.entityId) →
    ((resolverAddLoop subs out seen).2
        = (resolverAddLoop subs out seen).1.map (·.entityId))
  ∧ ((out.map (·.entityId)).Nodup →
      ((resolverAddLoop subs out seen).1.map (·.entityId)).Nodup)
  ∧ ∀ k, (resolverAddLoop subs out seen).1.find? (fun r => r.entityId == k)
       = ((out.find? (fun r => r.entityId == k)).or
           (if k ∈ seen then none else subs.find? (fun r => r.entityId == k))) := by
  induction subs with
  | nil =>
    intro out seen hinv
    refine ⟨hinv, fun h => h, fun k => ?_⟩
    simp only [resolverAddLoop, List.find?_nil]
    split <;> simp [Option.or_none]
  | cons rel rest ih =>
    intro out seen hinv
    by_cases hc : rel.entityId ∈ seen
    · have hcb : seen.contains rel.entityId = true := (string_contains_iff _ _).mpr hc
      simp only [resolverAddLoop, hcb, if_true]
      obtain ⟨ih1, ih2, ih3⟩ := ih out seen hinv
      refine ⟨ih1, ih2, fun k => ?_⟩
      rw [ih3 k]
      by_cases hk : k ∈ seen
      · simp [hk]
      · have hne : rel.entityId ≠ k := fun h => hk (h ▸ hc)
        rw [if_neg hk, if_neg hk, List.find?_cons_of_neg]
        simp [hne]
    · have hcb : seen.contains rel.entityId = false := by
        rw [← Bool.not_eq_true]
        exact fun h => hc ((string_contains_iff _ _).mp h)
      simp only [resolverAddLoop, hcb, Bool.false_eq_true, if_false]
      have hinv' : seen ++ [rel.entityId]
          = (out ++ [rel]).map (·.entityId) := by simp [hinv]
      obtain ⟨ih1, ih2, ih3⟩ := ih (out ++ [rel]) (seen ++ [rel.entityId]) hinv'
      refine ⟨ih1, fun hnd => ih2 ?_, fun k => ?_⟩
      · rw [List.map_append]
        rw [List.nodup_append]
        refine ⟨hnd, by simp, ?_⟩
        intro x hx hx1
        simp only [List.map_cons, List.map_nil, List.mem_cons, List.not_mem_nil,
          or_false] at hx1
        subst hx1
        exact hc (hinv ▸ hx)
      · rw [ih3 k]
        rw [List.find?_append]
        by_cases hk : k ∈ seen
        · have hks : k ∈ seen ++ [rel.entityId] := List.mem_append_left _ hk
          rw [if_pos hk, if_pos hks, Option.or_none, Option.or_none]
          have hne : rel.entityId ≠ k := fun h => hc (h ▸ hk)
          have hb : (rel.entityId == k) = false := beq_eq_false_iff_ne.mpr hne
          have : List.find? (fun r => r.entityId == k) [rel] = none := by
            simp [List.find?, hb]
          rw [this, Option.or_none]
        · rw [if_neg hk]
          by_cases hrk : rel.entityId = k
          · have hks : k ∈ seen ++ [rel.entityId] := by
              simp [hrk]
            rw [if_pos hks, Option.or_none]
            have hb : (rel.entityId == k) = true := beq_iff_eq.mpr hrk
            have h1 : List.find? (fun r => r.entityId == k) [rel] = some rel := by
              simp [List.find?, hb]
            have h2 : List.find? (fun r => r.entityId == k) (rel :: rest)
                = some rel := List.find?_cons_of_pos _ hb
            rw [h1, h2]
          · have hks : k ∉ seen ++ [rel.entityId] := by
              intro h
              rcases List.mem_append.mp h with h1 | h1
              · exact hk h1
              · exact hrk (List.mem_singleton.mp h1).symm
            rw [if_neg hks]
            have hb : (rel.entityId == k) = false := beq_eq_false_iff_ne.mpr hrk
            have h1 : List.find? (fun r => r.entityId == k) [rel] = none := by
              simp [List.find?, hb]
            have h2 : List.find? (fun r => r.entityId == k) (rel :: rest)
                = List.find? (fun r => r.entityId == k) rest :=
              List.find?_cons_of_neg _ (by simp [hb])
            rw [h1, h2, Option.or_none]

/-- C9: within one Pass-2 run, `addRelationship` is idempotent per relationship
entity id: the returned list has no duplicate entity ids, and for every id the
first submitted relationship is the one recorded. -/
theorem resolver_addRelationship_idempotent (submissions : List RelationshipInfo) :
    ((resolverAddAll submissions).map (·.entityId)).Nodup
  ∧ ∀ k, (resolverAddAll submissions).find? (fun r => r.entityId == k)
       = submissions.find? (fun r => r.entityId == k) := by
  obtain ⟨h1, h2, h3⟩ := resolverAddLoop_spec submissions [] [] rfl
  refine ⟨h2 (by simp), fun k => ?_⟩
  simpa [resolverAddAll] using h3 k

/-- Every slice the batching loop produces holds at most `B` records. -/
theorem batchesAux_size_le {α : Type} (B fuel : Nat) (l : List α) :
    ∀ b ∈ batchesAux B fuel l, b.length ≤ B := by
  induction fuel generalizing l with
  | zero => cases l <;> simp [batchesAux]
  | succ fuel ih =>
    cases l with
    | nil => simp [batchesAux]
    | cons x xs =>
      intro b hb
      simp only [batchesAux, List.mem_cons] at hb
      rcases hb with rfl | hb
      · rw [List.length_take]
        exact min_le_left _ _
      · exact ih _ b hb

/-- Every batch holds at most `B` records. -/
theorem batches_size_le {α : Type} (B : Nat) (l : List α) :
    ∀ b ∈ batches B l, b.length ≤ B :=
  batchesAux_size_le B l.length l

/-- C6: in the write phase of `analyze`, every node batch and every relationship
batch contains at most `storageBatchSize` records, and the commit sequence is
all node batches followed by all relationship batches. -/
theorem analyze_write_phase_batches (env : Option String) (finalNodes : List AstNode)
    (uniqueRelationships : List RelationshipInfo) :
    (∀ c ∈ analyzeWritePhase (configStorageBatchSize env) finalNodes
        uniqueRelationships,
        commitSize c ≤ configStorageBatchSize env)
  ∧ ∃ nodeCommits relCommits,
      analyzeWritePhase (configStorageBatchSize env) finalNodes uniqueRelationships
        = nodeCommits ++ relCommits
      ∧ nodeCommits.all isNodeCommit = true
      ∧ relCommits.all isRelCommit = true := by
  constructor
  · intro c hc
    unfold analyzeWritePhase at hc
    rcases List.mem_append.mp hc with h | h
    · unfold saveNodesBatches at h
      rw [List.mem_map] at h
      obtain ⟨b, hb, rfl⟩ := h
      simpa [commitSize] using batches_size_le _ _ b hb
    · rw [List.mem_flatMap] at h
      obtain ⟨g, hg, hcg⟩ := h
      unfold saveRelationshipsBatches at hcg
      rw [List.mem_map] at hcg
      obtain ⟨b, hb, rfl⟩ := hcg
      simpa [commitSize] using batches_size_le _ _ b hb
  · refine ⟨saveNodesBatches _ finalNodes,
      (groupByType uniqueRelationships).flatMap
        (fun g => saveRelationshipsBatches _ g.1 g.2),
      rfl, ?_, ?_⟩
    · rw [List.all_eq_true]
      intro c hc
      unfold saveNodesBatches at hc
      rw [List.mem_map] at hc
      obtain ⟨b, _, rfl⟩ := hc
      rfl
    · rw [List.all_eq_true]
      intro c hc
      rw [List.mem_flatMap] at hc
      obtain ⟨g, _, hcg⟩ := hc
      unfold saveRelationshipsBatches at hcg
      rw [List.mem_map] at hcg
      obtain ⟨b, _, rfl⟩ := hcg
      rfl

/-- Witness for C6: with batch size 2 and three nodes, the first committed node
batch holds two records, within the bound. -/
theorem analyze_write_phase_batches_witness :
    commitSize (WriteCommit.nodeBatch [c6NodeA, c6NodeB])
      ≤ configStorageBatchSize (some "2") :=
  (analyze_write_phase_batches (some "2") [c6NodeA, c6NodeB, c6NodeC] [c6Rel]).1
    (WriteCommit.nodeBatch [c6NodeA, c6NodeB]) (by decide)

/-- Unfolding equation of `lastEntryFor`. -/
theorem lastEntryFor_cons {α : Type} (k : String) (p : String × α)
    (t : List (String × α)) :
    lastEntryFor k (p :: t)
      = match lastEntryFor k t with
        | some v => some v
        | none => if p.1 = k then some p.2 else none := rfl

/-- Lookup after a JS `set`. -/
theorem mapGet_mapSet {α : Type} (m : List (String × α)) (k k' : String) (v : α) :
    mapGet (mapSet m k v) k' = if k = k' then some v else mapGet m k' := by
  induction m with
  | nil => simp [mapSet, mapGet]
  | cons p t ih =>
    simp only [mapSet]
    by_cases h : p.1 = k <;> by_cases h2 : k = k' <;> by_cases h3 : p.1 = k' <;>
      simp_all [mapGet]

/-- The last entry of a concatenation comes from the right part when present. -/
theorem lastEntryFor_append {α : Type} (k : String) (l₁ l₂ : List (String × α)) :
    lastEntryFor k (l₁ ++ l₂) = (lastEntryFor k l₂).or (lastEntryFor k l₁) := by
  induction l₁ with
  | nil => cases h : lastEntryFor k l₂ <;> simp [lastEntryFor, Option.or, h]
  | cons p t ih =>
    rw [List.cons_append, lastEntryFor_cons, lastEntryFor_cons, ih]
    cases h : lastEntryFor k l₂ <;> cases h2 : lastEntryFor k t <;>
      simp [Option.or]

/-- Folding `set` over a pair list: the last pair per key wins on lookup. -/
theorem mapGet_foldl_mapSet {α : Type} (ps : List (String × α))
    (m : List (String × α)) (k : String) :
    mapGet (ps.foldl (fun acc p => mapSet acc p.1 p.2) m) k
      = (lastEntryFor k ps).or (mapGet m k) := by
  induction ps generalizing m with
  | nil => simp [lastEntryFor, Option.or]
  | cons p t ih =>
    rw [List.foldl_cons, ih, mapGet_mapSet, lastEntryFor_cons]
    cases h : lastEntryFor k t
    · by_cases h2 : p.1 = k <;> simp [h2, Option.or]
    · simp [Option.or]

/-- A key present after `set` was present before or is the new key. -/
theorem mem_keys_mapSet {α : Type} (m : List (String × α)) (k x : String) (v : α)
    (h : x ∈ (mapSet m k v).map (·.1)) : x ∈ m.map (·.1) ∨ x = k := by
  induction m with
  | nil => simpa [mapSet] using h
  | cons p t ih =>
    simp only [mapSet] at h
    by_cases hp : p.1 = k
    · rw [if_pos hp] at h
      simp only [List.map_cons, List.mem_cons] at h
      rcases h with rfl | h
      · exact .inr rfl
      · exact .inl (List.mem_cons_of_mem _ h)
    · rw [if_neg hp] at h
      simp only [List.map_cons, List.mem_cons] at h
      rcases h with rfl | h
      · exact .inl (List.mem_cons_self _ _)
      · rcases ih h with h1 | h1
        · exact .inl (List.mem_cons_of_mem _ h1)
        · exact .inr h1

/-- JS `set` keeps map keys duplicate-free. -/
theorem keys_nodup_mapSet {α : Type} (m : List (String × α)) (k : String) (v : α)
    (h : (m.map (·.1)).Nodup) : ((mapSet m k v).map (·.1)).Nodup := by
  induction m with
  | nil => simp [mapSet]
  | cons p t ih =>
    simp only [mapSet]
    simp only [List.map_cons, List.nodup_cons] at h
    by_cases hp : p.1 = k
    · rw [if_pos hp]
      simp only [List.map_cons, List.nodup_cons]
      exact ⟨hp ▸ h.1, h.2⟩
    · rw [if_neg hp]
      simp only [List.map_cons, List.nodup_cons]
      refine ⟨fun hx => ?_, ih h.2⟩
      rcases mem_keys_mapSet t k p.1 v hx with h1 | h1
      · exact h.1 h1
      · exact hp h1

/-- Folding `set` keeps map keys duplicate-free. -/
theorem keys_nodup_foldl_mapSet {α : Type} (ps : List (String × α))
    (m : List (String × α)) (h : (m.map (·.1)).Nodup) :
    (((ps.foldl (fun acc p => mapSet acc p.1 p.2) m)).map (·.1)).Nodup := by
  induction ps generalizing m with
  | nil => exact h
  | cons p t ih => exact ih _ (keys_nodup_mapSet m p.1 p.2 h)

/-- No entry for an absent key. -/
theorem lastEntryFor_eq_none_of_not_mem {α : Type} (k : String)
    (m : List (String × α)) (h : k ∉ m.map (·.1)) : lastEntryFor k m = none := by
  induction m with
  | nil => rfl
  | cons p t ih =>
    simp only [List.map_cons, List.mem_cons, not_or] at h
    rw [lastEntryFor_cons, ih h.2]
    rw [if_neg (fun e => h.1 e.symm)]

/-- No lookup hit for an absent key. -/
theorem mapGet_eq_none_of_not_mem {α : Type} (k : String)
    (m : List (String × α)) (h : k ∉ m.map (·.1)) : mapGet m k = none := by
  induction m with
  | nil => rfl
  | cons p t ih =>
    simp only [List.map_cons, List.mem_cons, not_or] at h
    have hne : p.1 ≠ k := fun e => h.1 e.symm
    simp only [mapGet, if_neg hne]
    exact ih h.2

/-- With duplicate-free keys the last and the first entry per key agree. -/
theorem lastEntryFor_eq_mapGet_of_nodup {α : Type} (k : String)
    (m : List (String × α)) (h : (m.map (·.1)).Nodup) :
    lastEntryFor k m = mapGet m k := by
  induction m with
  | nil => rfl
  | cons p t ih =>
    simp only [List.map_cons, List.nodup_cons] at h
    rw [lastEntryFor_cons, ih h.2]
    by_cases hp : p.1 = k
    · rw [mapGet_eq_none_of_not_mem k t (hp ▸ h.1)]
      simp [mapGet, hp]
    · simp only [mapGet, if_neg hp]
      cases hg : mapGet t k <;> simp [hp]

/-- `set` with a matching key preserves the key-of-value invariant. -/
theorem keyed_mapSet {α : Type} (f : α → String) (m : List (String × α))
    (k : String) (v : α) (hm : ∀ p ∈ m, f p.2 = p.1) (hv : f v = k) :
    ∀ p ∈ mapSet m k v, f p.2 = p.1 := by
  induction m with
  | nil =>
    intro p hp
    simp only [mapSet, List.mem_singleton] at hp
    subst hp
    exact hv
  | cons q t ih =>
    intro p hp
    simp only [mapSet] at hp
    by_cases hq : q.1 = k
    · rw [if_pos hq] at hp
      rcases List.mem_cons.mp hp with rfl | h
      · exact hv
      · exact hm p (List.mem_cons_of_mem _ h)
    · rw [if_neg hq] at hp
      rcases List.mem_cons.mp hp with rfl | h
      · exact hm p (List.mem_cons_self _ _)
      · exact ih (fun r hr => hm r (List.mem_cons_of_mem _ hr)) p h

/-- Folding `set` over keyed pairs preserves the key-of-value invariant. -/
theorem keyed_foldl_mapSet {α : Type} (f : α → String) (ps : List (String × α))
    (m : List (String × α)) (hm : ∀ p ∈ m, f p.2 = p.1)
    (hps : ∀ p ∈ ps, f p.2 = p.1) :
    ∀ p ∈ ps.foldl (fun acc p => mapSet acc p.1 p.2) m, f p.2 = p.1 := by
  induction ps generalizing m with
  | nil => exact hm
  | cons q t ih =>
    rw [List.foldl_cons]
    exact ih _
      (keyed_mapSet f m q.1 q.2 hm (hps q (List.mem_cons_self _ _)))
      (fun r hr => hps r (List.mem_cons_of_mem _ hr))

/-- On a keyed map, searching the value list by key equals map lookup. -/
theorem find?_values_eq_mapGet {α : Type} (f : α → String) (m : List (String × α))
    (hm : ∀ p ∈ m, f p.2 = p.1) (k : String) :
    (mapValues m).find? (fun v => f v == k) = mapGet m k := by
  induction m with
  | nil => rfl
  | cons p t ih =>
    have hp := hm p (List.mem_cons_self _ _)
    simp only [mapValues, List.map_cons, mapGet]
    by_cases h : p.1 = k
    · rw [if_pos h]
      exact List.find?_cons_of_pos _ (beq_iff_eq.mpr (hp.trans h))
    · rw [if_neg h]
      rw [List.find?_cons_of_neg _ (by simp [hp, h])]
      exact ih (fun r hr => hm r (List.mem_cons_of_mem _ hr))

/-- On a keyed map, the keys of the value list are the map keys. -/
theorem values_keys_map {α : Type} (f : α → String) (m : List (String × α))
    (hm : ∀ p ∈ m, f p.2 = p.1) :
    (mapValues m).map f = m.map (·.1) := by
  induction m with
  | nil => rfl
  | cons p t ih =>
    simp only [mapValues, List.map_cons] at ih ⊢
    rw [hm p (List.mem_cons_self _ _),
      ih (fun r hr => hm r (List.mem_cons_of_mem _ hr))]

/-- The per-file node map is the pair fold of the node pair view. -/
theorem dedupFileNodes_eq (nodes : List AstNode) :
    dedupFileNodes nodes
      = (nodePairs nodes).foldl (fun acc p => mapSet acc p.1 p.2) [] := by
  unfold dedupFileNodes nodePairs
  rw [List.foldl_map]

/-- Node pairs are keyed by their node entity id. -/
theorem keyed_nodePairs (nodes : List AstNode) :
    ∀ p ∈ nodePairs nodes, p.2.entityId = p.1 := by
  intro p hp
  unfold nodePairs at hp
  rw [List.mem_map] at hp
  obtain ⟨n, _, rfl⟩ := hp
  rfl

/-- Relationship pairs are keyed by their relationship entity id. -/
theorem keyed_relPairs (rels : List RelationshipInfo) :
    ∀ p ∈ relPairs rels, p.2.entityId = p.1 := by
  intro p hp
  unfold relPairs at hp
  rw [List.mem_map] at hp
  obtain ⟨r, _, rfl⟩ := hp
  rfl

/-- The per-file node map is keyed by entity id. -/
theorem keyed_dedupFileNodes (nodes : List AstNode) :
    ∀ p ∈ dedupFileNodes nodes, p.2.entityId = p.1 := by
  rw [dedupFileNodes_eq]
  exact keyed_foldl_mapSet _ _ [] (by simp) (keyed_nodePairs nodes)

/-- Per-file deduplication keeps, per key, exactly the last node of the file. -/
theorem lastEntryFor_dedupFileNodes (nodes : List AstNode) (k : String) :
    lastEntryFor k (dedupFileNodes nodes) = lastEntryFor k (nodePairs nodes) := by
  rw [lastEntryFor_eq_mapGet_of_nodup k _
    (by rw [dedupFileNodes_eq]; exact keys_nodup_foldl_mapSet _ [] (by simp))]
  rw [dedupFileNodes_eq, mapGet_foldl_mapSet]
  exact Option.or_none

/-- The relationship side of `ingestResult` as a pair fold. -/
theorem ingest_relationshipMap_eq (maps : CollectMaps) (r : SingleFileParseResult) :
    (ingestResult maps r).relationshipMap
      = (relPairs r.relationships).foldl (fun acc p => mapSet acc p.1 p.2)
          maps.relationshipMap := by
  unfold ingestResult relPairs
  rw [List.foldl_map]

/-- Node lookup after ingesting one file result. -/
theorem mapGet_ingest_nodeMap (maps : CollectMaps) (r : SingleFileParseResult)
    (k : String) :
    mapGet (ingestResult maps r).nodeMap k
      = (lastEntryFor k (nodePairs r.nodes)).or (mapGet maps.nodeMap k) := by
  unfold ingestResult
  rw [mapGet_foldl_mapSet, lastEntryFor_dedupFileNodes]

/-- Relationship lookup after ingesting one file result. -/
theorem mapGet_ingest_relationshipMap (maps : CollectMaps)
    (r : SingleFileParseResult) (k : String) :
    mapGet (ingestResult maps r).relationshipMap k
      = (lastEntryFor k (relPairs r.relationships)).or
          (mapGet maps.relationshipMap k) := by
  rw [ingest_relationshipMap_eq, mapGet_foldl_mapSet]

/-- Node lookup after ingesting a result sequence: the last write wins. -/
theorem mapGet_foldl_ingest_nodeMap (rs : List SingleFileParseResult)
    (maps : CollectMaps) (k : String) :
    mapGet ((rs.foldl ingestResult maps).nodeMap) k
      = (lastEntryFor k (nodePairs (rs.flatMap (·.nodes)))).or
          (mapGet maps.nodeMap k) := by
  induction rs generalizing maps with
  | nil => simp [lastEntryFor, nodePairs, Option.none_or]
  | cons r t ih =>
    rw [List.foldl_cons, ih, mapGet_ingest_nodeMap, List.flatMap_cons]
    rw [show nodePairs (r.nodes ++ t.flatMap (·.nodes))
          = nodePairs r.nodes ++ nodePairs (t.flatMap (·.nodes)) from
        by simp [nodePairs]]
    rw [lastEntryFor_append, Option.or_assoc]

/-- Relationship lookup after ingesting a result sequence: the last write wins. -/
theorem mapGet_foldl_ingest_relationshipMap (rs : List SingleFileParseResult)
    (maps : CollectMaps) (k : String) :
    mapGet ((rs.foldl ingestResult maps).relationshipMap) k
      = (lastEntryFor k (relPairs (rs.flatMap (·.relationships)))).or
          (mapGet maps.relationshipMap k) := by
  induction rs generalizing maps with
  | nil => simp [lastEntryFor, relPairs, Option.none_or]
  | cons r t ih =>
    rw [List.foldl_cons, ih, mapGet_ingest_relationshipMap, List.flatMap_cons]
    rw [show relPairs (r.relationships ++ t.flatMap (·.relationships))
          = relPairs r.relationships ++ relPairs (t.flatMap (·.relationships)) from
        by simp [relPairs]]
    rw [lastEntryFor_append, Option.or_assoc]

/-- Skipping invalid results in the fold equals folding over the valid ones. -/
theorem foldl_guard_eq_filter (rs : List SingleFileParseResult) (maps : CollectMaps) :
    rs.foldl (fun maps r => if r.filePath = "" then maps else ingestResult maps r)
        maps
      = (rs.filter (fun r => r.filePath ≠ "")).foldl ingestResult maps := by
  induction rs generalizing maps with
  | nil => rfl
  | cons r t ih =>
    rw [List.foldl_cons, List.filter_cons]
    by_cases h : r.filePath = ""
    · have hd : (decide (r.filePath ≠ "")) = false := by simp [h]
      rw [if_pos h, hd]
      simp only [Bool.false_eq_true, if_false]
      exact ih maps
    · have hd : (decide (r.filePath ≠ "")) = true := by simp [h]
      rw [if_neg h, hd, if_pos rfl, List.foldl_cons]
      exact ih (ingestResult maps r)

/-- Ingestion keeps both maps keyed by entity id and their keys duplicate-free. -/
theorem ingest_fold_invariants (rs : List SingleFileParseResult) (maps : CollectMaps)
    (hkn : ∀ p ∈ maps.nodeMap, p.2.entityId = p.1)
    (hnn : (maps.nodeMap.map (·.1)).Nodup)
    (hkr : ∀ p ∈ maps.relationshipMap, p.2.entityId = p.1)
    (hnr : (maps.relationshipMap.map (·.1)).Nodup) :
    (∀ p ∈ (rs.foldl ingestResult maps).nodeMap, p.2.entityId = p.1)
  ∧ (((rs.foldl ingestResult maps).nodeMap.map (·.1)).Nodup)
  ∧ (∀ p ∈ (rs.foldl ingestResult maps).relationshipMap, p.2.entityId = p.1)
  ∧ (((rs.foldl ingestResult maps).relationshipMap.map (·.1)).Nodup) := by
  induction rs generalizing maps with
  | nil => exact ⟨hkn, hnn, hkr, hnr⟩
  | cons r t ih =>
    rw [List.foldl_cons]
    apply ih
    · exact keyed_foldl_mapSet _ _ _ hkn (keyed_dedupFileNodes r.nodes)
    · exact keys_nodup_foldl_mapSet _ _ hnn
    · rw [ingest_relationshipMap_eq]
      exact keyed_foldl_mapSet _ _ _ hkr (keyed_relPairs r.relationships)
    · rw [ingest_relationshipMap_eq]
      exact keys_nodup_foldl_mapSet _ _ hnr

/-- C5: the merged output of `collectResults` holds no two nodes and no two
relationships with the same entity id, and for every entity id the record kept
is exactly the last record with that id in processing order (JSON results with
a valid file path first, then the in-memory TS results). -/
theorem collectResults_dedup_last_write_wins
    (jsonResults tsResults : List SingleFileParseResult) :
    (((collectResults jsonResults tsResults).1.map (·.entityId)).Nodup
      ∧ ((collectResults jsonResults tsResults).2.map (·.entityId)).Nodup)
  ∧ (∀ k, (collectResults jsonResults tsResults).1.find? (fun n => n.entityId == k)
        = lastEntryFor k (nodePairs
            ((jsonResults.filter (fun r => r.filePath ≠ "") ++ tsResults).flatMap
              (·.nodes))))
  ∧ (∀ k, (collectResults jsonResults tsResults).2.find? (fun r => r.entityId == k)
        = lastEntryFor k (relPairs
            ((jsonResults.filter (fun r => r.filePath ≠ "") ++ tsResults).flatMap
              (·.relationships)))) := by
  have e1 : (collectResults jsonResults tsResults).1
      = mapValues (collectMapsAfter jsonResults tsResults).nodeMap := rfl
  have e2 : (collectResults jsonResults tsResults).2
      = mapValues (collectMapsAfter jsonResults tsResults).relationshipMap := rfl
  have e3 : collectMapsAfter jsonResults tsResults
      = (jsonResults.filter (fun r => r.filePath ≠ "") ++ tsResults).foldl
          ingestResult { nodeMap := [], relationshipMap := [] } := by
    unfold collectMapsAfter
    rw [foldl_guard_eq_filter, ← List.foldl_append]
  obtain ⟨hkn, hnn, hkr, hnr⟩ := ingest_fold_invariants
    (jsonResults.filter (fun r => r.filePath ≠ "") ++ tsResults)
    { nodeMap := [], relationshipMap := [] } (by simp) (by simp) (by simp) (by simp)
  rw [e1, e2, e3]
  refine ⟨⟨?_, ?_⟩, fun k => ?_, fun k => ?_⟩
  · have hv := values_keys_map (fun n : AstNode => n.entityId) _ hkn
    rw [hv]
    exact hnn
  · have hv := values_keys_map (fun r : RelationshipInfo => r.entityId) _ hkr
    rw [hv]
    exact hnr
  · have hv := find?_values_eq_mapGet (fun n : AstNode => n.entityId) _ hkn k
    rw [hv, mapGet_foldl_ingest_nodeMap]
    exact Option.or_none
  · have hv := find?_values_eq_mapGet (fun r : RelationshipInfo => r.entityId) _ hkr k
    rw [hv, mapGet_foldl_ingest_relationshipMap]
    exact Option.or_none
